import Mathlib

/-!
Shallow embedding of the Cognitive-Bionic Memory repository and proofs about it.

The repository is a Python simulation of a layered memory architecture:
  * `layer0_representation.py` — knowledge graph plus confidence-gated
    arbitration between the symbolic store and a generative fallback;
  * `layer1_storage.py` — episodic/semantic dual store with alias-expanded
    keyword search and retrieval counters;
  * `layer2_processing.py` — capacity-bounded attention buffer with
    eviction-and-compression, and a per-concept reinforcement tracker;
  * `consolidation_engine.py` — five-dimension saliency scoring and the
    consolidate/prune/retain cycle.

Modelling conventions, used throughout:
  * Python dicts holding records become Lean structures; JSON numbers become
    `ℚ` (every JSON literal is a finite decimal), counters become `ℕ`.
  * `math.exp` / `math.log` on floats are modelled over `ℝ` with `Real.exp`
    and `Real.log` (the idealised value of the float computation); the few
    definitions touching them are `noncomputable`, everything else computes.
  * Timestamps: the code stores ISO strings and parses them with
    `datetime.fromisoformat` inside `try/except`.  We model the *parsed*
    timestamp as `Option ℚ` measured in days: `none` covers both a missing
    field (`KeyError`) and an unparseable string (`ValueError`); the current
    time is an explicit `now : ℚ` parameter.
  * Python dict iteration order is insertion order; dicts are modelled as
    association lists.  `set(...)` iteration order (used once, in concept
    extraction) is modelled as first-occurrence order; no theorem below
    depends on that order.
  * Pure display strings (responses, explanations, log messages) are out of
    scope per §1/§6 of the design document and are not modelled except where
    their construction matters to record fields.
-/

namespace CBMemory

/-! ### String helpers: Python `in`, `str.split()`, `str.lower()` -/

/-- Does the character list `h` start with the character list `n`?
(Helper for Python's substring operator `in`.) -/
def leadsWith : List Char → List Char → Bool
  | [], _ => true
  | _ :: _, [] => false
  | a :: as, b :: bs => a == b && leadsWith as bs

/-- Does `n` occur contiguously inside `h`?  The empty list occurs in
everything, matching Python's `"" in s == True`. -/
def occursWithin (n : List Char) : List Char → Bool
  | [] => leadsWith n []
  | b :: bs => leadsWith n (b :: bs) || occursWithin n bs

/-- Python's `needle in haystack` on strings. -/
def strOccurs (needle haystack : String) : Bool :=
  occursWithin needle.data haystack.data

/-- Python's `s.lower()`, character by character (the same per-character map
as Lean's `String.toLower`, written over `List Char` so that the kernel can
evaluate it on concrete strings). -/
def pyLower (s : String) : String :=
  ⟨s.data.map Char.toLower⟩

/-- Python's `s.replace(pattern, r)` for a one-character pattern (every
`replace` in the repository has a one-character pattern). -/
def replaceChar (s : String) (c : Char) (r : String) : String :=
  ⟨s.data.flatMap (fun x => if x = c then r.data else [x])⟩

/-- Worker for `pySplit`: `acc` holds the current (reversed) run of
non-whitespace characters. -/
def splitWsGo : List Char → List Char → List String
  | [], acc => if acc.isEmpty then [] else [⟨acc.reverse⟩]
  | c :: cs, acc =>
    if c.isWhitespace then
      if acc.isEmpty then splitWsGo cs [] else ⟨acc.reverse⟩ :: splitWsGo cs []
    else splitWsGo cs (c :: acc)

/-- Python's `s.split()` (no argument): split on whitespace runs, dropping
empty pieces. -/
def pySplit (s : String) : List String :=
  splitWsGo s.data []

/-- The query tokenization shared by `EpisodicStore._expand_query` and
`SemanticStore.search`:
`query.lower().replace("？", "").replace("?", "").replace("，", " ").split()`. -/
def pyTokens (s : String) : List String :=
  pySplit (replaceChar (replaceChar (replaceChar (pyLower s) '？' "") '?' "") '，' " ")

/-! ### Layer 2: `ConceptChunk` and `AttentionBuffer`

From `layer2_processing.py`.  The two wall-clock fields `added_at` and
`last_accessed` are write-only (no code path reads them back), so they are
not carried in the structure. -/

structure ConceptChunk where
  concept : String
  content : String
  source : String
  isCompressed : Bool
  rawConcepts : List String
  accessCount : ℕ
deriving DecidableEq

/-- The fuzzy-dedup test of `AttentionBuffer.add` step 1:
`concept.lower() in chunk.concept.lower() or chunk.concept.lower() in concept.lower()`. -/
def chunkMatches (concept : String) (chunk : ConceptChunk) : Bool :=
  strOccurs (pyLower concept) (pyLower chunk.concept) ||
    strOccurs (pyLower chunk.concept) (pyLower concept)

/-- Walk the buffer in order and bump the access count of the first chunk the
incoming concept fuzzily matches (the `for chunk in self.buffer` loop);
`none` when no chunk matches. -/
def refreshFirst (concept : String) : List ConceptChunk → Option (List ConceptChunk)
  | [] => none
  | c :: cs =>
    if chunkMatches concept c then
      some ({ c with accessCount := c.accessCount + 1 } :: cs)
    else
      (refreshFirst concept cs).map (c :: ·)

/-- Eviction score from `AttentionBuffer._compress_and_add`:
`accessCount*2 + (0 if compressed else 1) + (1 if source=="conversation" else 0.5)`;
lower = evicted first. -/
def evictionScore (c : ConceptChunk) : ℚ :=
  c.accessCount * 2 + (if c.isCompressed then 0 else 1) +
    (if c.source == "conversation" then 1 else 1/2)

/-- The compressed summary chunk built from the evicted chunks. -/
def compressedChunk (evicted : List ConceptChunk) : ConceptChunk :=
  { concept := "[壓縮] " ++ String.intercalate " + " (evicted.map (·.concept))
    content := "（組塊化摘要）" ++
      String.intercalate " | " (evicted.map (fun c => c.concept ++ ": " ++ c.content.take 50))
    source := "compression"
    isCompressed := true
    rawConcepts := evicted.map (·.concept)
    accessCount := 0 }

/-- `AttentionBuffer._compress_and_add`: sort ascending by eviction score
(stably, as Python's `sort` does), evict the 2 lowest, compress them into one
summary chunk, and append summary plus newcomer after the kept chunks. -/
def compressAndAdd (buf : List ConceptChunk) (newChunk : ConceptChunk) :
    List ConceptChunk :=
  let sorted := List.insertionSort (fun a b => evictionScore a ≤ evictionScore b) buf
  let evicted := sorted.take 2
  let kept := sorted.drop 2
  kept ++ [compressedChunk evicted, newChunk]

inductive AddAction where
  | refreshed
  | added
  | compressed
deriving DecidableEq

structure AddOutcome where
  action : AddAction
  buffer : List ConceptChunk
deriving DecidableEq

/-- `AttentionBuffer.add`: refresh on fuzzy match, append when below capacity,
otherwise evict-and-compress. -/
def bufferAdd (capacity : ℕ) (buf : List ConceptChunk)
    (concept content source : String) : AddOutcome :=
  match refreshFirst concept buf with
  | some buf' => ⟨.refreshed, buf'⟩
  | none =>
    let newChunk : ConceptChunk :=
      { concept := concept, content := content, source := source
        isCompressed := false, rawConcepts := [], accessCount := 0 }
    if buf.length < capacity then ⟨.added, buf ++ [newChunk]⟩
    else ⟨.compressed, compressAndAdd buf newChunk⟩

/-- A whole sequence of `add` calls starting from the empty buffer. -/
def runBuffer (capacity : ℕ) (ops : List (String × String × String)) :
    List ConceptChunk :=
  ops.foldl (fun b op => (bufferAdd capacity b op.1 op.2.1 op.2.2).buffer) []

/-! ### Layer 2: `PhonologicalLoop` (reinforcement tracker) -/

/-- The tracker's `self.cycling` dict, as an association list
`lowercased concept ↦ cycle count` in insertion order. -/
abbrev CycState := List (String × ℕ)

def cycLookup (s : CycState) (k : String) : Option ℕ :=
  (s.find? (fun p => p.1 == k)).map (·.2)

/-- In-place update of an existing key (`self.cycling[key] += 1`). -/
def cycSet (s : CycState) (k : String) (v : ℕ) : CycState :=
  s.map (fun p => if p.1 == k then (p.1, v) else p)

/-- `del self.cycling[key]`. -/
def cycErase (s : CycState) (k : String) : CycState :=
  s.filter (fun p => p.1 ≠ k)

structure EncOutcome where
  status : String
  cycles : ℕ
deriving DecidableEq

/-- `PhonologicalLoop.encounter`, returning the report and the new state. -/
def encounter (threshold : ℕ) (s : CycState) (concept : String) :
    EncOutcome × CycState :=
  let key := pyLower concept
  match cycLookup s key with
  | none => (⟨"new", 1⟩, s ++ [(key, 1)])
  | some n =>
    let m := n + 1
    if threshold ≤ m then (⟨"consolidated", m⟩, cycErase s key)
    else (⟨"cycling", m⟩, cycSet s key m)

/-- State after `n` encounters of the same concept, starting from an empty
tracker. -/
def encIter (threshold : ℕ) (concept : String) : ℕ → CycState
  | 0 => []
  | n + 1 => (encounter threshold (encIter threshold concept n) concept).2

/-- Report returned by the `(n+1)`-th encounter of the concept. -/
def encStep (threshold : ℕ) (concept : String) (n : ℕ) : EncOutcome :=
  (encounter threshold (encIter threshold concept n) concept).1

/-! ### Layer 1: episodic and semantic stores (`layer1_storage.py`) -/

/-- An episodic record.  `timestamp` is the parsed ISO timestamp in days
(`none` = missing or unparseable, see the module comment). -/
structure Episode where
  id : String
  timestamp : Option ℚ
  source : String
  content : String
  tags : List String
  userImportance : ℚ
  emotionalValence : ℚ
  retrievalCount : ℕ
deriving DecidableEq

/-- A semantic record.  `lastUpdated` is the creation/update time in days. -/
structure SemEntry where
  id : String
  concept : String
  content : String
  sourceEpisodes : List String
  confidence : ℚ
  lastUpdated : ℚ
deriving DecidableEq

/-- The searchable text of an episode:
`(episode["content"] + " " + " ".join(episode.get("tags", []))).lower()`. -/
def epText (ep : Episode) : String :=
  pyLower (ep.content ++ " " ++ String.intercalate " " ep.tags)

/-- The searchable text of a semantic entry:
`(entry["concept"] + " " + entry["content"]).lower()`. -/
def semText (e : SemEntry) : String :=
  pyLower (e.concept ++ " " ++ e.content)

/-- Session alias map (`TemporaryBinding.alias_map`), keys already
lowercased by `add_alias`. -/
abbrev AliasMap := List (String × String)

def aliasLookup (m : AliasMap) (term : String) : Option String :=
  ((m.find? (fun p => p.1 == term)).map (·.2))

/-- `EpisodicStore._expand_query` (the identical loop is inlined in
`SemanticStore.search`): tokenize, then after each token that is an alias
key append the bound meaning's own tokens.  An empty alias map is falsy in
Python, so no expansion pass runs at all. -/
def expandQuery (query : String) (aliasMap : AliasMap) : List String :=
  let terms := pyTokens query
  if aliasMap.isEmpty then terms
  else terms.flatMap (fun t =>
    t :: (match aliasLookup aliasMap t with
          | some meaning => pySplit (pyLower meaning)
          | none => []))

/-- `EpisodicStore._relevance_score`: matching terms over total terms. -/
def relevanceScore (ep : Episode) (terms : List String) : ℚ :=
  (terms.countP (fun t => strOccurs t (epText ep)) : ℚ) / max terms.length 1

/-- `EpisodicStore.search`: keep records with positive relevance, sorted
descending by relevance (stably, as Python's `sorted` is).  A result is the
record paired with its `_relevance`. -/
def episodicSearch (query : String) (aliasMap : AliasMap) (eps : List Episode) :
    List (Episode × ℚ) :=
  let terms := expandQuery query aliasMap
  let results := eps.filterMap (fun ep =>
    let s := relevanceScore ep terms
    if 0 < s then some (ep, s) else none)
  List.insertionSort (fun a b => b.2 ≤ a.2) results

/-- `SemanticStore.search`: same shape over entries. -/
def semanticSearch (query : String) (aliasMap : AliasMap) (entries : List SemEntry) :
    List (SemEntry × ℚ) :=
  let terms := expandQuery query aliasMap
  let results := entries.filterMap (fun e =>
    let s : ℚ := (terms.countP (fun t => strOccurs t (semText e)) : ℚ) / max terms.length 1
    if 0 < s then some (e, s) else none)
  List.insertionSort (fun a b => b.2 ≤ a.2) results

/-- Python's `f"{n:03d}"`. -/
def pad3 (n : ℕ) : String :=
  let s := toString n
  (List.replicate (3 - s.length) '0').asString ++ s

/-- `EpisodicStore.add_episode`: fresh record with id `ep_{len+1:03d}`,
creation timestamp, zero valence and zero retrieval count. -/
def addEpisode (eps : List Episode) (now : ℚ) (content source : String)
    (tags : List String) (importance : ℚ) : Episode × List Episode :=
  let ep : Episode :=
    { id := "ep_" ++ pad3 (eps.length + 1)
      timestamp := some now
      source := source
      content := content
      tags := tags
      userImportance := importance
      emotionalValence := 0
      retrievalCount := 0 }
  (ep, eps ++ [ep])

/-- `SemanticStore.add_entry`: fresh entry with id `sem_{len+1:03d}`. -/
def addEntry (entries : List SemEntry) (now : ℚ) (concept content : String)
    (sourceEpisodes : List String) (confidence : ℚ) : SemEntry × List SemEntry :=
  let e : SemEntry :=
    { id := "sem_" ++ pad3 (entries.length + 1)
      concept := concept
      content := content
      sourceEpisodes := sourceEpisodes
      confidence := confidence
      lastUpdated := now }
  (e, entries ++ [e])

/-- `EpisodicStore.increment_retrieval`: bump the first record with the
given id (the loop `break`s after the first hit). -/
def incrementRetrieval : List Episode → String → List Episode
  | [], _ => []
  | e :: es, i =>
    if e.id = i then { e with retrievalCount := e.retrievalCount + 1 } :: es
    else e :: incrementRetrieval es i

/-- Shared mutable state of the dual-store system. -/
structure DualState where
  episodes : List Episode
  entries : List SemEntry
  aliases : AliasMap
deriving DecidableEq

/-- What `DualStore.search` returns to the caller. -/
structure SearchOutcome where
  strategy : String
  episodicResults : List (Episode × ℚ)
  semanticResults : List (SemEntry × ℚ)
  activeAliases : AliasMap
deriving DecidableEq

/-- `DualStore.search`: search both stores with alias expansion, bump the
retrieval counter of the top 3 episodic hits, then pick the compensation
strategy.  Returns the report and the post-call state. -/
def dualSearch (st : DualState) (query : String) : SearchOutcome × DualState :=
  let aliasMap := st.aliases
  let epResults := episodicSearch query aliasMap st.episodes
  let semResults := semanticSearch query aliasMap st.entries
  let episodes' := (epResults.take 3).foldl
    (fun acc r => incrementRetrieval acc r.1.id) st.episodes
  let epSufficient :=
    match epResults with
    | r :: _ => decide (2 ≤ epResults.length) && decide ((3/10 : ℚ) < r.2)
    | [] => false
  let semSufficient :=
    match semResults with
    | r :: _ => decide (1 ≤ semResults.length) && decide ((3/10 : ℚ) < r.2)
    | [] => false
  let strategy :=
    if epSufficient && semSufficient then "both_available"
    else if epSufficient && !semSufficient then "episodic_primary"
    else if !epSufficient && semSufficient then "semantic_compensation"
    else "insufficient"
  (⟨strategy, epResults.take 5, semResults.take 3, aliasMap⟩,
   ⟨episodes', st.entries, st.aliases⟩)

/-! ### Layer 0: knowledge graph and arbitration (`layer0_representation.py`) -/

structure Triple where
  subject : String
  relation : String
  object : String
  confidence : ℚ
deriving DecidableEq

/-- The `subject.lower() ↦ triples` index built in `KnowledgeGraph.__init__`,
as an association list in first-insertion order (Python dict order). -/
def buildIndex (triples : List Triple) : List (String × List Triple) :=
  triples.foldl (fun idx t =>
    let key := pyLower t.subject
    if (idx.find? (fun kb => kb.1 == key)).isSome then
      idx.map (fun kb => if kb.1 == key then (kb.1, kb.2 ++ [t]) else kb)
    else idx ++ [(key, [t])]) []

/-- `KnowledgeGraph.query` with `relation=None`: bucket hits by fuzzy subject
match, then a full scan over objects (skipping triples already collected),
sorted descending by confidence. -/
def kgQuery (triples : List Triple) (concept : String) : List Triple :=
  let cl := pyLower concept
  let part1 := (buildIndex triples).foldl (fun acc kb =>
    if strOccurs cl kb.1 || strOccurs kb.1 cl then acc ++ kb.2 else acc) []
  let part2 := triples.foldl (fun acc t =>
    if strOccurs cl (pyLower t.object) && !(acc.contains t) then acc ++ [t]
    else acc) part1
  List.insertionSort (fun a b => b.confidence ≤ a.confidence) part2

/-- `KnowledgeGraph.get_max_confidence`: 0 on no results, else the maximum. -/
def getMaxConfidence : List Triple → ℚ
  | [] => 0
  | t :: ts => ts.foldl (fun m x => max m x.confidence) t.confidence

/-- `ArbitrationLayer._extract_concepts`: known subjects/objects found as
substrings of the query (length > 2), else tokens of length > 2, max 5.
Python's `list(set(...))` iterates in arbitrary order; we pin it to
first-occurrence order with `List.eraseDups` (no theorem depends on it). -/
def extractConcepts (triples : List Triple) (query : String) : List String :=
  let known :=
    (triples.map (fun t => pyLower t.subject) ++ triples.map (fun t => pyLower t.object)).eraseDups
  let found := known.filter (fun c => strOccurs c (pyLower query) && decide (2 < c.length))
  if found.isEmpty then
    (pySplit (replaceChar (replaceChar (replaceChar (replaceChar query '？' "") '?' "") '，' " ") '、' " ")
      |>.filter (fun w => decide (2 < w.length))).take 5
  else found

/-- Worker for `dedupHits`, threading the `seen` set of
`(subject, relation, object)` keys. -/
def dedupHitsGo (seen : List (String × String × String)) :
    List Triple → List Triple
  | [] => []
  | t :: ts =>
    let k := (t.subject, t.relation, t.object)
    if seen.contains k then dedupHitsGo seen ts
    else t :: dedupHitsGo (k :: seen) ts

/-- Deduplicate KG hits by `(subject, relation, object)`, keeping the first
occurrence (the `seen` set loop in `ArbitrationLayer.arbitrate`). -/
def dedupHits (l : List Triple) : List Triple :=
  dedupHitsGo [] l

inductive Decision where
  | kgPrimary
  | hybrid
  | llmPrimaryKgRef
  | llmFallback
deriving DecidableEq

structure ArbOutcome where
  decision : Decision
  llmCalled : Bool
  maxConf : ℚ
  hits : List Triple
deriving DecidableEq

/-- The four-way `if/elif` ladder of `ArbitrationLayer.arbitrate` (step 2),
reading only `max_conf` of the deduplicated hits: thresholds
`HIGH_CONFIDENCE = 0.85` / `LOW_CONFIDENCE = 0.50`.  `llmCalled` records
whether `self.llm.generate` ran in that branch; the composed display strings
are not modelled. -/
def arbDecide (kgResults : List Triple) : ArbOutcome :=
  let maxConf := getMaxConfidence kgResults
  if (85/100 : ℚ) ≤ maxConf then ⟨.kgPrimary, false, maxConf, kgResults⟩
  else if (50/100 : ℚ) ≤ maxConf then ⟨.hybrid, true, maxConf, kgResults⟩
  else if 0 < maxConf then ⟨.llmPrimaryKgRef, true, maxConf, kgResults⟩
  else ⟨.llmFallback, true, maxConf, kgResults⟩

/-- `ArbitrationLayer.arbitrate`: extract concepts (unless given), query the
KG per concept, deduplicate, then branch on the maximal confidence. -/
def arbitrate (triples : List Triple) (query : String)
    (concepts? : Option (List String)) : ArbOutcome :=
  let concepts := concepts?.getD (extractConcepts triples query)
  let raw := concepts.flatMap (fun c => kgQuery triples c)
  arbDecide (dedupHits raw)

/-! ### Saliency scorer (`consolidation_engine.py`, `SaliencyScorer`)

The default weights `0.25 / 0.20 / 0.25 / 0.15 / 0.15` and thresholds
`0.65` / `0.25` are modelled (no caller passes custom ones). -/

/-- `_frequency_score`: `min(log1p(count)/log1p(15), 1)`. -/
noncomputable def frequencyScore (retrievalCount : ℕ) : ℝ :=
  min (Real.log (1 + retrievalCount) / Real.log 16) 1

/-- `_recency_score`: `exp(-0.693 * days_ago / 30)` on a parseable timestamp,
`0.5` when the timestamp is missing or unparseable (the `except` branch). -/
noncomputable def recencyScore (now : ℚ) : Option ℚ → ℝ
  | none => 1/2
  | some ts => Real.exp (-(693/1000) * ((now : ℝ) - (ts : ℝ)) / 30)

/-- `_user_signal_score`: `0.6 * importance/5 + 0.4 * |valence|`. -/
def userSignalScore (importance valence : ℚ) : ℚ :=
  3/5 * (importance / 5) + 2/5 * |valence|

/-- `_novelty_score`: one minus the fraction of the episode's (distinct,
lowercased) tags found as substrings of some semantic entry's text; `0.5`
when the episode has no tags. -/
def noveltyScore (ep : Episode) (entries : List SemEntry) : ℚ :=
  let tags := (ep.tags.map pyLower).eraseDups
  if tags.isEmpty then 1/2
  else
    let covered := tags.filter (fun tag => entries.any (fun e => strOccurs tag (semText e)))
    1 - (covered.length : ℚ) / tags.length

/-- `_connection_density_score`: other episodes (by id) sharing at least one
lowercased tag, capped at 4; `0` when the episode has no tags. -/
def connectionScore (ep : Episode) (eps : List Episode) : ℚ :=
  let tags := (ep.tags.map pyLower).eraseDups
  if tags.isEmpty then 0
  else
    let connections := eps.countP (fun o =>
      !(o.id == ep.id) && (o.tags.map pyLower).any (fun t => tags.contains t))
    min ((connections : ℚ) / 4) 1

/-- The weighted total of `SaliencyScorer.score`. -/
noncomputable def totalScore (now : ℚ) (ep : Episode) (entries : List SemEntry)
    (eps : List Episode) : ℝ :=
  1/4 * frequencyScore ep.retrievalCount
    + 1/5 * recencyScore now ep.timestamp
    + 1/4 * (userSignalScore ep.userImportance ep.emotionalValence : ℝ)
    + 3/20 * (noveltyScore ep entries : ℝ)
    + 3/20 * (connectionScore ep eps : ℝ)

inductive SalAction where
  | consolidate
  | prune
  | retain
deriving DecidableEq

/-- The threshold branch of `SaliencyScorer.score`: `total >= 0.65` →
consolidate, `total <= 0.25` → prune, otherwise retain (this runs on the
unrounded total). -/
noncomputable def saliencyAction (total : ℝ) : SalAction :=
  if 13/20 ≤ total then .consolidate
  else if total ≤ 1/4 then .prune
  else .retain

/-- Python's `round(x, 3)` (the value is always a 3-decimal rational; exact
half-thousandths, where Python rounds half-to-even, do not arise in any
statement below). -/
noncomputable def roundTo3 (x : ℝ) : ℚ :=
  ((round (1000 * x) : ℤ) : ℚ) / 1000

/-- The fields of the dict returned by `SaliencyScorer.score` that the rest
of the engine reads: `episode_id`, the rounded `total_score`, `action`. -/
structure ScoreRes where
  episodeId : String
  total : ℚ
  action : SalAction
deriving DecidableEq

noncomputable def saliencyScore (now : ℚ) (ep : Episode) (entries : List SemEntry)
    (eps : List Episode) : ScoreRes :=
  ⟨ep.id, roundTo3 (totalScore now ep entries eps),
    saliencyAction (totalScore now ep entries eps)⟩

/-! ### Consolidation engine (`ConsolidationEngine.run`)

The engine is constructed around an injected scorer
(`ConsolidationEngine.__init__(self, scorer)`), so `run` is embedded
parametrically in the scoring function; `saliencyScorer now` is the scorer
the repository actually builds.  The returned event record is logging and is
not modelled; `run`'s effect on the two stores is. -/

abbrev Scorer := Episode → List SemEntry → List Episode → ScoreRes

structure Stores where
  episodes : List Episode
  entries : List SemEntry
deriving DecidableEq

noncomputable def saliencyScorer (now : ℚ) : Scorer :=
  fun ep entries eps => saliencyScore now ep entries eps

/-- `ConsolidationEngine._extract_pattern`: first 100 characters of the
content, framed as an auto-extracted insight. -/
def extractPattern (ep : Episode) : String :=
  if 100 < ep.content.length then "（自動提煉）" ++ ep.content.take 100 ++ "..."
  else "（自動提煉）" ++ ep.content

/-- The dedup test inside `run`: an entry already lists this episode id as a
source, or at least 2 of the episode's (distinct, lowercased) tags occur in
the entry's lowercased content. -/
def alreadyConsolidated (ep : Episode) (entries : List SemEntry) : Bool :=
  entries.any (fun entry =>
    decide (ep.id ∈ entry.sourceEpisodes) ||
      decide (2 ≤ ((ep.tags.map pyLower).eraseDups.countP
        (fun tag => strOccurs tag (pyLower entry.content)))))

/-- One iteration of the consolidation loop in `run`: look the episode up by
id (`next(...)`; the id always comes from the scored episodes, the `none`
arm is unreachable for the engine's own score results), skip when already
consolidated, else append the new semantic entry. -/
def consolidateStep (eps : List Episode) (now : ℚ) (entries : List SemEntry)
    (item : ScoreRes) : List SemEntry :=
  match eps.find? (fun e => e.id == item.episodeId) with
  | none => entries
  | some ep =>
    if alreadyConsolidated ep entries then entries
    else (addEntry entries now ("從「" ++ ep.source.take 30 ++ "」提煉的洞見")
      (extractPattern ep) [ep.id] item.total).2

/-- `ConsolidationEngine.run`: score every episode, write semantic entries
for the `consolidate` ones (after dedup), then drop the `prune` ones from
the episodic store. -/
def runConsolidation (scorer : Scorer) (now : ℚ) (st : Stores) : Stores :=
  let scores := st.episodes.map (fun ep => scorer ep st.entries st.episodes)
  let toConsolidate := scores.filter (fun s => s.action == .consolidate)
  let entries' := toConsolidate.foldl (consolidateStep st.episodes now) st.entries
  let prunedIds := (scores.filter (fun s => s.action == .prune)).map (·.episodeId)
  let episodes' := st.episodes.filter (fun e => !(prunedIds.contains e.id))
  ⟨episodes', entries'⟩

/-! ## Basic lemmas -/

lemma occursWithin_nil (l : List Char) : occursWithin [] l = true := by
  cases l <;> simp [occursWithin, leadsWith]

lemma strOccurs_empty_left (s : String) : strOccurs "" s = true :=
  occursWithin_nil s.data

lemma pyLower_empty : pyLower "" = "" := rfl

/-! ## C7: the reinforcement tracker state machine -/

/-- After `k` encounters with `1 ≤ k < threshold`, the tracker holds exactly
the one concept at count `k`. -/
lemma encIter_below (threshold : ℕ) (concept : String) :
    ∀ k, 1 ≤ k → k < threshold →
      encIter threshold concept k = [(pyLower concept, k)] := by
  intro k
  induction k with
  | zero => exact fun h => absurd h (by omega)
  | succ n ih =>
    intro _ hlt
    rcases Nat.eq_zero_or_pos n with h0 | hpos
    · subst h0
      simp [encIter, encounter, cycLookup]
    · have hn := ih hpos (by omega)
      have hth : ¬ threshold ≤ n + 1 := by omega
      simp [encIter, hn, encounter, cycLookup, cycSet, hth]

/-- C7 (amended: `cycle_threshold ≥ 2`; the repository default is 3).  For
every concept, the encounter numbered exactly `threshold` reports status
`consolidated`, the concept is then absent from the tracker (so from
`get_cycling_concepts()`), and the next encounter of the same concept
reports `new` with count 1. -/
theorem reinforcement_tracker_consolidates (threshold : ℕ) (concept : String)
    (h : 2 ≤ threshold) :
    encStep threshold concept (threshold - 1) = ⟨"consolidated", threshold⟩ ∧
    encIter threshold concept threshold = [] ∧
    cycLookup (encIter threshold concept threshold) (pyLower concept) = none ∧
    encStep threshold concept threshold = ⟨"new", 1⟩ := by
  obtain ⟨n, rfl⟩ : ∃ n, threshold = n + 1 := ⟨threshold - 1, by omega⟩
  have h1 : 1 ≤ n := by omega
  have hmid : encIter (n + 1) concept n = [(pyLower concept, n)] :=
    encIter_below (n + 1) concept n h1 (by omega)
  have henc : encounter (n + 1) [(pyLower concept, n)] concept
      = (⟨"consolidated", n + 1⟩, []) := by
    simp [encounter, cycLookup, cycErase]
  have hstep : encStep (n + 1) concept n = ⟨"consolidated", n + 1⟩ := by
    simp [encStep, hmid, henc]
  have hst : encIter (n + 1) concept (n + 1) = [] := by
    simp [encIter, hmid, henc]
  refine ⟨by simpa using hstep, hst, by simp [hst, cycLookup], ?_⟩
  simp [encStep, hst, encounter, cycLookup]

/-- C7 witness: with the default threshold 3, the third encounter
consolidates and the fourth restarts at `new`. -/
theorem reinforcement_tracker_consolidates_witness :
    encStep 3 "工作記憶" 2 = ⟨"consolidated", 3⟩ ∧
    encStep 3 "工作記憶" 3 = ⟨"new", 1⟩ := by
  have h := reinforcement_tracker_consolidates 3 "工作記憶" (by decide)
  exact ⟨h.1, h.2.2.2⟩

/-- C7 counterexample: with `cycle_threshold = 1` the first encounter takes
the `key not in self.cycling` branch, so it reports `new` (never
`consolidated`) and the concept stays in the tracker with count 1 — contrary
to the claim read at every threshold value. -/
theorem reinforcement_tracker_threshold_one_cex :
    encStep 1 "工作記憶" 0 = ⟨"new", 1⟩ ∧
    encStep 1 "工作記憶" 0 ≠ ⟨"consolidated", 1⟩ ∧
    encIter 1 "工作記憶" 1 = [("工作記憶", 1)] :=
  ⟨by decide, by decide, by decide⟩

/-! ## C10: adding the empty-string concept to a non-empty buffer -/

/-- C10: on a non-empty buffer, `add("")` always hits the fuzzy-dedup branch
at the very first chunk (the empty string is a substring of every label), so
the call returns `refreshed`, only the first chunk's access count changes,
and the buffer size is unchanged. -/
theorem empty_concept_refresh (capacity : ℕ) (buf : List ConceptChunk)
    (h : buf ≠ []) (content source : String) :
    bufferAdd capacity buf "" content source =
      ⟨.refreshed,
        { buf.head h with accessCount := (buf.head h).accessCount + 1 } :: buf.tail⟩ ∧
    (bufferAdd capacity buf "" content source).buffer.length = buf.length := by
  match buf, h with
  | c :: cs, _ =>
    have hm : chunkMatches "" c = true := by
      simp [chunkMatches, pyLower_empty, strOccurs_empty_left]
    have hr : refreshFirst "" (c :: cs)
        = some ({ c with accessCount := c.accessCount + 1 } :: cs) := by
      simp [refreshFirst, hm]
    have hb : bufferAdd capacity (c :: cs) "" content source
        = ⟨.refreshed, { c with accessCount := c.accessCount + 1 } :: cs⟩ := by
      simp [bufferAdd, hr]
    exact ⟨hb, by simp [hb]⟩

/-- C10 witness at a concrete singleton buffer. -/
theorem empty_concept_refresh_witness :
    ([(⟨"概念", "內容", "conversation", false, [], 0⟩ : ConceptChunk)] ≠ []) ∧
    (bufferAdd 5 [⟨"概念", "內容", "conversation", false, [], 0⟩] "" "x" "conversation").buffer.length
      = [(⟨"概念", "內容", "conversation", false, [], 0⟩ : ConceptChunk)].length :=
  ⟨by decide, (empty_concept_refresh 5 _ (by decide) "x" "conversation").2⟩

/-! ## C2: the attention buffer never exceeds its capacity -/

lemma refreshFirst_some_length (concept : String) :
    ∀ {buf buf' : List ConceptChunk}, refreshFirst concept buf = some buf' →
      buf'.length = buf.length := by
  intro buf
  induction buf with
  | nil => intro buf' h; simp [refreshFirst] at h
  | cons c cs ih =>
    intro buf' h
    by_cases hm : chunkMatches concept c
    · simp [refreshFirst, hm] at h
      simp [← h]
    · simp [refreshFirst, hm] at h
      obtain ⟨a, ha, rfl⟩ := h
      simp [ih ha]

lemma compressAndAdd_length (buf : List ConceptChunk) (newChunk : ConceptChunk)
    (h : 2 ≤ buf.length) :
    (compressAndAdd buf newChunk).length = buf.length := by
  simp [compressAndAdd, List.length_insertionSort]
  omega

lemma bufferAdd_length_le (C : ℕ) (hC : 2 ≤ C) (buf : List ConceptChunk)
    (hb : buf.length ≤ C) (concept content source : String) :
    (bufferAdd C buf concept content source).buffer.length ≤ C := by
  cases hr : refreshFirst concept buf with
  | some b' =>
    have he : bufferAdd C buf concept content source = ⟨.refreshed, b'⟩ := by
      simp [bufferAdd, hr]
    rw [he]
    exact (refreshFirst_some_length concept hr) ▸ hb
  | none =>
    by_cases hlt : buf.length < C
    · have he : (bufferAdd C buf concept content source).buffer
          = buf ++ [⟨concept, content, source, false, [], 0⟩] := by
        simp [bufferAdd, hr, hlt]
      rw [he]
      simp
      omega
    · have hlen : buf.length = C := by omega
      have he : (bufferAdd C buf concept content source).buffer
          = compressAndAdd buf ⟨concept, content, source, false, [], 0⟩ := by
        simp [bufferAdd, hr, hlt]
      rw [he, compressAndAdd_length buf _ (by omega)]
      omega

lemma runBuffer_from (C : ℕ) (hC : 2 ≤ C) (ops : List (String × String × String)) :
    ∀ b : List ConceptChunk, b.length ≤ C →
      (ops.foldl (fun b op => (bufferAdd C b op.1 op.2.1 op.2.2).buffer) b).length ≤ C := by
  induction ops with
  | nil => exact fun b hb => hb
  | cons op rest ih =>
    exact fun b hb => ih _ (bufferAdd_length_le C hC b hb op.1 op.2.1 op.2.2)

/-- C2 (amended: capacity at least 2; the repository default is 5).  Over
every sequence of `add` calls from the empty buffer the size stays ≤ C, and
an `add` on a full buffer whose concept fuzzily matches no chunk (the
overflow case) leaves the size at exactly C. -/
theorem attention_buffer_capacity (C : ℕ) (hC : 2 ≤ C)
    (ops : List (String × String × String)) (concept content source : String) :
    (runBuffer C ops).length ≤ C ∧
    ((runBuffer C ops).length = C →
      refreshFirst concept (runBuffer C ops) = none →
      (bufferAdd C (runBuffer C ops) concept content source).buffer.length = C) := by
  have h1 : (runBuffer C ops).length ≤ C := runBuffer_from C hC ops [] (by simp)
  refine ⟨h1, fun hfull hnone => ?_⟩
  have he : (bufferAdd C (runBuffer C ops) concept content source).buffer
      = compressAndAdd (runBuffer C ops) ⟨concept, content, source, false, [], 0⟩ := by
    simp [bufferAdd, hnone, hfull]
  rw [he, compressAndAdd_length _ _ (by omega)]
  exact hfull

/-- C2 witness: capacity 2, two non-matching adds fill the buffer, a third
non-matching add overflows and the size is exactly 2 afterwards. -/
theorem attention_buffer_capacity_witness :
    2 ≤ 2 ∧
    (bufferAdd 2 (runBuffer 2 [("甲", "x", "conversation"), ("乙", "y", "conversation")])
      "丙丁" "z" "conversation").buffer.length = 2 :=
  ⟨by decide,
    (attention_buffer_capacity 2 (by decide)
      [("甲", "x", "conversation"), ("乙", "y", "conversation")]
      "丙丁" "z" "conversation").2
      (by with_unfolding_all decide) (by with_unfolding_all decide)⟩

/-- C2 counterexample: with capacity 1 the second (overflow) add evicts the
only chunk, then appends both the compressed chunk and the new one, so the
buffer ends at size 2 > 1 — the claim fails when read at every capacity. -/
theorem attention_buffer_capacity_one_cex :
    (runBuffer 1 [("甲", "x", "conversation"), ("乙", "y", "conversation")]).length = 2 ∧
    ¬ (runBuffer 1 [("甲", "x", "conversation"), ("乙", "y", "conversation")]).length ≤ 1 :=
  ⟨by with_unfolding_all decide, by with_unfolding_all decide⟩

/-! ## C6: alias expansion in episodic search

The binding from the design document's example.  Note the bound meaning
`"工作記憶限制帶來的正面約束"` has no whitespace, so `meaning.lower().split()`
yields the whole meaning as a single token. -/

def bottleneckAliases : AliasMap := [("瓶頸", "工作記憶限制帶來的正面約束")]

/-- Sanity: the expanded term set for the query `瓶頸` is the query token
plus the whole bound meaning as one token. -/
lemma bottleneck_expansion :
    expandQuery "瓶頸" bottleneckAliases = ["瓶頸", "工作記憶限制帶來的正面約束"] := by
  with_unfolding_all rfl

/-- C6 (amended): with that binding active, a search for `瓶頸` returns (with
positive relevance) every record whose searchable text contains the *entire
bound meaning* `工作記憶限制帶來的正面約束`, even when the record never
contains `瓶頸`.  (Containing only the fragment `工作記憶限制` is not enough,
because the meaning is appended as a single token — see the
counterexample.) -/
theorem alias_expansion_matches (eps : List Episode) (ep : Episode)
    (hmem : ep ∈ eps)
    (hocc : strOccurs "工作記憶限制帶來的正面約束" (epText ep) = true) :
    ∃ q : ℚ, (ep, q) ∈ episodicSearch "瓶頸" bottleneckAliases eps ∧ 0 < q := by
  have hcount :
      0 < (expandQuery "瓶頸" bottleneckAliases).countP
        (fun t => strOccurs t (epText ep)) :=
    List.countP_pos_iff.mpr ⟨"工作記憶限制帶來的正面約束", by simp [bottleneck_expansion], hocc⟩
  have hspos : 0 < relevanceScore ep (expandQuery "瓶頸" bottleneckAliases) := by
    rw [relevanceScore]
    apply div_pos
    · exact_mod_cast hcount
    · rw [bottleneck_expansion]
      norm_num
  refine ⟨relevanceScore ep (expandQuery "瓶頸" bottleneckAliases), ?_, hspos⟩
  show _ ∈ episodicSearch "瓶頸" bottleneckAliases eps
  unfold episodicSearch
  refine ((List.perm_insertionSort _ _).mem_iff).mpr ?_
  exact List.mem_filterMap.mpr ⟨ep, hmem, by simp [if_pos hspos]⟩

/-- C6 witness: a record that contains the full bound meaning (but not the
literal term `瓶頸`) is found with positive relevance. -/
theorem alias_expansion_matches_witness :
    (⟨"ep_002", none, "筆記", "工作記憶限制帶來的正面約束很關鍵", [], 3, 0, 0⟩ : Episode) ∈
      [(⟨"ep_002", none, "筆記", "工作記憶限制帶來的正面約束很關鍵", [], 3, 0, 0⟩ : Episode)] ∧
    strOccurs "工作記憶限制帶來的正面約束"
      (epText ⟨"ep_002", none, "筆記", "工作記憶限制帶來的正面約束很關鍵", [], 3, 0, 0⟩) = true ∧
    ∃ q : ℚ,
      ((⟨"ep_002", none, "筆記", "工作記憶限制帶來的正面約束很關鍵", [], 3, 0, 0⟩ : Episode), q) ∈
        episodicSearch "瓶頸" bottleneckAliases
          [⟨"ep_002", none, "筆記", "工作記憶限制帶來的正面約束很關鍵", [], 3, 0, 0⟩] ∧
      0 < q :=
  ⟨by decide, by decide, alias_expansion_matches _ _ (by decide) (by decide)⟩

/-- C6 counterexample: a record containing `工作記憶限制` (but neither `瓶頸`
nor the full bound meaning) is *not* returned: the expanded term
`工作記憶限制帶來的正面約束` is matched as one token by the substring test
`t in text`, which fails, so the record scores 0 and is excluded — contrary
to the claim that every record containing `工作記憶限制` matches. -/
theorem alias_expansion_cex :
    strOccurs "工作記憶限制"
      (epText ⟨"ep_001", none, "研究筆記", "工作記憶限制是關鍵", [], 3, 0, 0⟩) = true ∧
    strOccurs "瓶頸"
      (epText ⟨"ep_001", none, "研究筆記", "工作記憶限制是關鍵", [], 3, 0, 0⟩) = false ∧
    episodicSearch "瓶頸" bottleneckAliases
      [⟨"ep_001", none, "研究筆記", "工作記憶限制是關鍵", [], 3, 0, 0⟩] = [] :=
  ⟨by decide, by decide, by with_unfolding_all decide⟩

/-! ## C9: the recency dimension never raises and has the stated values -/

/-- C9: `_recency_score` is a total function of the parsed timestamp: a
missing or unparseable timestamp (the `except (ValueError, KeyError)`
branch, `timestamp = none` here) yields exactly 0.5, and a parsed timestamp
`d` yields `exp(-0.693·(now − d)/30)` — the exponential decay with
half-life ≈ 30 days. -/
theorem recency_default_and_formula (now : ℚ) (ts : Option ℚ) :
    (ts = none → recencyScore now ts = 1/2) ∧
    (∀ d : ℚ, ts = some d →
      recencyScore now ts = Real.exp (-(693/1000) * ((now : ℝ) - (d : ℝ)) / 30)) := by
  constructor
  · rintro rfl; rfl
  · rintro d rfl; rfl

/-- C9 witness at both shapes of timestamp. -/
theorem recency_default_and_formula_witness :
    recencyScore 0 none = 1/2 ∧
    recencyScore 0 (some 1) =
      Real.exp (-(693/1000) * (((0 : ℚ) : ℝ) - ((1 : ℚ) : ℝ)) / 30) :=
  ⟨(recency_default_and_formula 0 none).1 rfl,
   (recency_default_and_formula 0 (some 1)).2 1 rfl⟩

/-! ## C3: arbitration decision is determined by the max confidence -/

lemma kgQuery_nil (c : String) : kgQuery [] c = [] := rfl

lemma flatMap_kgQuery_nil (cs : List String) :
    cs.flatMap (fun c => kgQuery [] c) = [] := by
  induction cs with
  | nil => rfl
  | cons a as ih => simp [List.flatMap_cons, kgQuery_nil, ih]

/-- The branch ladder sends each confidence band to its decision. -/
lemma arbDecide_cases (R : List Triple) :
    ((85/100 : ℚ) ≤ getMaxConfidence R →
      (arbDecide R).decision = .kgPrimary ∧ (arbDecide R).llmCalled = false) ∧
    ((50/100 : ℚ) ≤ getMaxConfidence R ∧ getMaxConfidence R < 85/100 →
      (arbDecide R).decision = .hybrid ∧ (arbDecide R).llmCalled = true) ∧
    (0 < getMaxConfidence R ∧ getMaxConfidence R < 50/100 →
      (arbDecide R).decision = .llmPrimaryKgRef ∧ (arbDecide R).llmCalled = true) ∧
    (getMaxConfidence R = 0 →
      (arbDecide R).decision = .llmFallback ∧ (arbDecide R).llmCalled = true) ∧
    (arbDecide R).maxConf = getMaxConfidence R := by
  unfold arbDecide
  dsimp only []
  split_ifs with h1 h2 h3
  · exact ⟨fun _ => ⟨rfl, rfl⟩, fun h => absurd h1 (not_le.mpr h.2),
      fun h => by linarith [h.2], fun h => by rw [h] at h1; norm_num at h1, rfl⟩
  · exact ⟨fun h => absurd h h1, fun _ => ⟨rfl, rfl⟩,
      fun h => absurd h2 (not_le.mpr h.2),
      fun h => by rw [h] at h2; norm_num at h2, rfl⟩
  · exact ⟨fun h => absurd h h1, fun h => absurd h.1 h2,
      fun _ => ⟨rfl, rfl⟩, fun h => by rw [h] at h3; norm_num at h3, rfl⟩
  · exact ⟨fun h => absurd h h1, fun h => absurd h.1 h2,
      fun h => absurd h.1 h3, fun _ => ⟨rfl, rfl⟩, rfl⟩

/-- C3: the arbitration decision is a function of the maximal confidence of
the deduplicated hits, with the stated bands; at `maxConf = 0` — in
particular on an empty knowledge graph — the decision is always
`llm_fallback`, and the generative fallback is invoked exactly in the three
non-`kg_primary` bands. -/
theorem arbitration_decision_by_confidence (triples : List Triple) (query : String)
    (concepts? : Option (List String)) :
    ((85/100 : ℚ) ≤ (arbitrate triples query concepts?).maxConf →
      (arbitrate triples query concepts?).decision = .kgPrimary ∧
      (arbitrate triples query concepts?).llmCalled = false) ∧
    ((50/100 : ℚ) ≤ (arbitrate triples query concepts?).maxConf ∧
        (arbitrate triples query concepts?).maxConf < 85/100 →
      (arbitrate triples query concepts?).decision = .hybrid ∧
      (arbitrate triples query concepts?).llmCalled = true) ∧
    (0 < (arbitrate triples query concepts?).maxConf ∧
        (arbitrate triples query concepts?).maxConf < 50/100 →
      (arbitrate triples query concepts?).decision = .llmPrimaryKgRef ∧
      (arbitrate triples query concepts?).llmCalled = true) ∧
    ((arbitrate triples query concepts?).maxConf = 0 →
      (arbitrate triples query concepts?).decision = .llmFallback ∧
      (arbitrate triples query concepts?).llmCalled = true) ∧
    (triples = [] →
      (arbitrate triples query concepts?).decision = .llmFallback ∧
      (arbitrate triples query concepts?).maxConf = 0) := by
  have harb : arbitrate triples query concepts?
      = arbDecide (dedupHits ((concepts?.getD (extractConcepts triples query)).flatMap
          (fun c => kgQuery triples c))) := rfl
  set R := dedupHits ((concepts?.getD (extractConcepts triples query)).flatMap
    (fun c => kgQuery triples c)) with hR
  obtain ⟨hc1, hc2, hc3, hc4, hc5⟩ := arbDecide_cases R
  rw [harb, hc5]
  refine ⟨hc1, hc2, hc3, hc4, ?_⟩
  rintro rfl
  have hzero : getMaxConfidence R = 0 := by
    rw [hR, flatMap_kgQuery_nil]; rfl
  rw [hzero]
  exact ⟨(hc4 hzero).1, rfl⟩

/-- C3 witness: empty knowledge graph, arbitrary query — `maxConf = 0`,
decision `llm_fallback`, fallback invoked. -/
theorem arbitration_decision_by_confidence_witness :
    (arbitrate [] "這是什麼" none).maxConf = 0 ∧
    (arbitrate [] "這是什麼" none).decision = .llmFallback ∧
    (arbitrate [] "這是什麼" none).llmCalled = true := by
  have h := arbitration_decision_by_confidence [] "這是什麼" none
  have h0 : (arbitrate [] "這是什麼" none).maxConf = 0 := (h.2.2.2.2 rfl).2
  exact ⟨h0, (h.2.2.2.1 h0).1, (h.2.2.2.1 h0).2⟩

/-! ## C1: saliency totals lie in [0,1] and the action bands are inclusive -/

lemma frequencyScore_bounds (c : ℕ) :
    0 ≤ frequencyScore c ∧ frequencyScore c ≤ 1 := by
  unfold frequencyScore
  refine ⟨le_min ?_ (by norm_num), min_le_right _ _⟩
  apply div_nonneg
  · apply Real.log_nonneg
    have : (0 : ℝ) ≤ c := Nat.cast_nonneg c
    linarith
  · apply Real.log_nonneg
    norm_num

lemma recencyScore_bounds (now : ℚ) (ts : Option ℚ) (h : ∀ d ∈ ts, d ≤ now) :
    0 ≤ recencyScore now ts ∧ recencyScore now ts ≤ 1 := by
  cases ts with
  | none =>
    unfold recencyScore
    norm_num
  | some d =>
    have hd : (d : ℝ) ≤ (now : ℝ) := by exact_mod_cast h d rfl
    refine ⟨Real.exp_nonneg _, ?_⟩
    rw [recencyScore, Real.exp_le_one_iff]
    nlinarith

lemma userSignalScore_bounds (imp val : ℚ) (h1 : 1 ≤ imp) (h5 : imp ≤ 5)
    (hv : |val| ≤ 1) :
    0 ≤ userSignalScore imp val ∧ userSignalScore imp val ≤ 1 := by
  unfold userSignalScore
  have h0 : 0 ≤ |val| := abs_nonneg val
  constructor <;> nlinarith

lemma noveltyScore_bounds (ep : Episode) (entries : List SemEntry) :
    0 ≤ noveltyScore ep entries ∧ noveltyScore ep entries ≤ 1 := by
  unfold noveltyScore
  dsimp only []
  split_ifs with h
  · norm_num
  · have hne : (ep.tags.map pyLower).eraseDups ≠ [] := by
      simpa [List.isEmpty_iff] using h
    have hlen : 0 < ((ep.tags.map pyLower).eraseDups.length : ℚ) := by
      exact_mod_cast List.length_pos.mpr hne
    have hfil : ((((ep.tags.map pyLower).eraseDups.filter
          (fun tag => entries.any (fun e => strOccurs tag (semText e)))).length : ℚ))
        ≤ ((ep.tags.map pyLower).eraseDups.length : ℚ) := by
      exact_mod_cast List.length_filter_le _ _
    have hge : (0 : ℚ) ≤ (((ep.tags.map pyLower).eraseDups.filter
          (fun tag => entries.any (fun e => strOccurs tag (semText e)))).length : ℚ) := by
      positivity
    constructor
    · rw [sub_nonneg, div_le_one hlen]
      exact hfil
    · have : 0 ≤ (((ep.tags.map pyLower).eraseDups.filter
          (fun tag => entries.any (fun e => strOccurs tag (semText e)))).length : ℚ)
          / ((ep.tags.map pyLower).eraseDups.length : ℚ) := by positivity
      linarith

lemma connectionScore_bounds (ep : Episode) (eps : List Episode) :
    0 ≤ connectionScore ep eps ∧ connectionScore ep eps ≤ 1 := by
  unfold connectionScore
  dsimp only []
  split_ifs with h
  · norm_num
  · refine ⟨le_min (by positivity) (by norm_num), min_le_right _ _⟩

lemma roundTo3_bounds (x : ℝ) (h0 : 0 ≤ x) (h1 : x ≤ 1) :
    0 ≤ roundTo3 x ∧ roundTo3 x ≤ 1 := by
  unfold roundTo3
  have hr0 : (0 : ℤ) ≤ round (1000 * x) := by
    rw [round_eq, Int.le_floor]
    push_cast
    linarith
  have hr1 : round (1000 * x) ≤ 1000 := by
    rw [round_eq, Int.floor_le_iff]
    push_cast
    linarith
  constructor
  · apply div_nonneg _ (by norm_num)
    exact_mod_cast hr0
  · rw [div_le_one (by norm_num)]
    exact_mod_cast hr1

lemma saliencyAction_iff (t : ℝ) :
    (saliencyAction t = .consolidate ↔ 13/20 ≤ t) ∧
    (saliencyAction t = .prune ↔ t ≤ 1/4) ∧
    (saliencyAction t = .retain ↔ 1/4 < t ∧ t < 13/20) := by
  unfold saliencyAction
  split_ifs with h1 h2
  · exact ⟨iff_of_true rfl h1, iff_of_false (by simp) (by intro hle; linarith),
      iff_of_false (by simp) (fun h => absurd h.2 (not_lt.mpr h1))⟩
  · exact ⟨iff_of_false (by simp) h1, iff_of_true rfl h2,
      iff_of_false (by simp) (fun h => absurd h2 (not_le.mpr h.1))⟩
  · exact ⟨iff_of_false (by simp) h1, iff_of_false (by simp) h2,
      iff_of_true rfl ⟨not_le.mp h2, not_le.mp h1⟩⟩

/-- C1: for every episode whose fields satisfy the data model
(`user_importance ∈ [1,5]`, `emotional_valence ∈ [-1,1]`, timestamp — when
parseable — not in the future), against any semantic-entry list and any
episodic set: the weighted total and the rounded `total_score` both lie in
[0,1], and the action bands are exactly `consolidate ⟺ total ≥ 0.65`,
`prune ⟺ total ≤ 0.25`, `retain ⟺ 0.25 < total < 0.65` — both boundaries
inclusive for the listed action. -/
theorem saliency_score_bounds (now : ℚ) (ep : Episode) (entries : List SemEntry)
    (eps : List Episode)
    (hImp1 : 1 ≤ ep.userImportance) (hImp5 : ep.userImportance ≤ 5)
    (hVal : |ep.emotionalValence| ≤ 1) (hTs : ∀ d ∈ ep.timestamp, d ≤ now) :
    (0 ≤ totalScore now ep entries eps ∧ totalScore now ep entries eps ≤ 1) ∧
    (0 ≤ (saliencyScore now ep entries eps).total ∧
      (saliencyScore now ep entries eps).total ≤ 1) ∧
    ((saliencyScore now ep entries eps).action = .consolidate ↔
      13/20 ≤ totalScore now ep entries eps) ∧
    ((saliencyScore now ep entries eps).action = .prune ↔
      totalScore now ep entries eps ≤ 1/4) ∧
    ((saliencyScore now ep entries eps).action = .retain ↔
      1/4 < totalScore now ep entries eps ∧ totalScore now ep entries eps < 13/20) := by
  have h1 := frequencyScore_bounds ep.retrievalCount
  have h2 := recencyScore_bounds now ep.timestamp hTs
  have h3 := userSignalScore_bounds ep.userImportance ep.emotionalValence hImp1 hImp5 hVal
  have h4 := noveltyScore_bounds ep entries
  have h5 := connectionScore_bounds ep eps
  have h3r : 0 ≤ ((userSignalScore ep.userImportance ep.emotionalValence : ℚ) : ℝ) ∧
      ((userSignalScore ep.userImportance ep.emotionalValence : ℚ) : ℝ) ≤ 1 :=
    ⟨by exact_mod_cast h3.1, by exact_mod_cast h3.2⟩
  have h4r : 0 ≤ ((noveltyScore ep entries : ℚ) : ℝ) ∧
      ((noveltyScore ep entries : ℚ) : ℝ) ≤ 1 :=
    ⟨by exact_mod_cast h4.1, by exact_mod_cast h4.2⟩
  have h5r : 0 ≤ ((connectionScore ep eps : ℚ) : ℝ) ∧
      ((connectionScore ep eps : ℚ) : ℝ) ≤ 1 :=
    ⟨by exact_mod_cast h5.1, by exact_mod_cast h5.2⟩
  have htot : 0 ≤ totalScore now ep entries eps ∧ totalScore now ep entries eps ≤ 1 := by
    unfold totalScore
    constructor <;>
      nlinarith [h1.1, h1.2, h2.1, h2.2, h3r.1, h3r.2, h4r.1, h4r.2, h5r.1, h5r.2]
  have hrnd := roundTo3_bounds (totalScore now ep entries eps) htot.1 htot.2
  have hact := saliencyAction_iff (totalScore now ep entries eps)
  exact ⟨htot, hrnd, hact.1, hact.2.1, hact.2.2⟩

/-- C1 witness at a concrete well-formed episode: the bounds hold with the
hypotheses discharged. -/
theorem saliency_score_bounds_witness :
    (0 ≤ totalScore 0 ⟨"ep_001", none, "s", "內容", [], 3, 0, 0⟩ [] [] ∧
      totalScore 0 ⟨"ep_001", none, "s", "內容", [], 3, 0, 0⟩ [] [] ≤ 1) ∧
    (0 ≤ (saliencyScore 0 ⟨"ep_001", none, "s", "內容", [], 3, 0, 0⟩ [] []).total ∧
      (saliencyScore 0 ⟨"ep_001", none, "s", "內容", [], 3, 0, 0⟩ [] []).total ≤ 1) :=
  ⟨(saliency_score_bounds 0 ⟨"ep_001", none, "s", "內容", [], 3, 0, 0⟩ [] []
      (by norm_num) (by norm_num) (by norm_num) (by simp)).1,
   (saliency_score_bounds 0 ⟨"ep_001", none, "s", "內容", [], 3, 0, 0⟩ [] []
      (by norm_num) (by norm_num) (by norm_num) (by simp)).2.1⟩

/-! ## C8: `DualStore.search` bumps exactly the top-3 episodic hits -/

lemma incrementRetrieval_eq_map (eps : List Episode) (i : String)
    (h : (eps.map (·.id)).Nodup) :
    incrementRetrieval eps i
      = eps.map (fun e =>
          if e.id = i then { e with retrievalCount := e.retrievalCount + 1 } else e) := by
  induction eps with
  | nil => rfl
  | cons e es ih =>
    have hcons := List.nodup_cons.mp h
    by_cases he : e.id = i
    · have hes : ∀ e' ∈ es, e'.id ≠ i := by
        intro e' he' hc
        have hmem : e'.id ∈ es.map (·.id) := List.mem_map_of_mem (·.id) he'
        rw [hc, ← he] at hmem
        exact hcons.1 hmem
      have hmap : es.map (fun e =>
          if e.id = i then { e with retrievalCount := e.retrievalCount + 1 } else e) = es := by
        calc es.map _ = es.map id := List.map_congr_left (fun a ha => if_neg (hes a ha))
        _ = es := List.map_id es
      simp [incrementRetrieval, he, hmap]
    · simp [incrementRetrieval, he, ih hcons.2]

/-- Folding `increment_retrieval` over a duplicate-free id list bumps exactly
the episodes whose id is in the list. -/
lemma foldl_incrementRetrieval_eq_map :
    ∀ (L : List String) (eps : List Episode), (eps.map (·.id)).Nodup → L.Nodup →
      L.foldl incrementRetrieval eps
        = eps.map (fun e =>
            if e.id ∈ L then { e with retrievalCount := e.retrievalCount + 1 } else e) := by
  intro L
  induction L with
  | nil =>
    intro eps _ _
    simp
  | cons i L' ih =>
    intro eps hE hL
    have hLc := List.nodup_cons.mp hL
    rw [List.foldl_cons, incrementRetrieval_eq_map eps i hE]
    have hidpres : (eps.map (fun e =>
        if e.id = i then { e with retrievalCount := e.retrievalCount + 1 } else e)).map (·.id)
        = eps.map (·.id) := by
      rw [List.map_map]
      apply List.map_congr_left
      intro a _
      by_cases ha : a.id = i <;> simp [ha]
    rw [ih _ (hidpres ▸ hE) hLc.2, List.map_map]
    apply List.map_congr_left
    intro a _
    by_cases ha : a.id = i
    · simp [Function.comp, ha, hLc.1]
    · simp [Function.comp, ha, List.mem_cons]

/-- The episodes kept by the positive-relevance filter form a sublist of the
store. -/
lemma map_fst_posFilter_sublist (f : Episode → ℚ) (eps : List Episode) :
    ((eps.filterMap (fun ep => if 0 < f ep then some (ep, f ep) else none)).map
      Prod.fst).Sublist eps := by
  induction eps with
  | nil => simp
  | cons e es ih =>
    rw [List.filterMap_cons]
    by_cases hs : 0 < f e
    · simp only [if_pos hs, List.map_cons]
      exact ih.cons₂ e
    · simp only [if_neg hs]
      exact ih.cons e

/-- C8: a `DualStore.search` call (on a store whose episode ids are
pairwise distinct, per the data model) rewrites the episodic store by adding
exactly 1 to `retrieval_count` of each top-3 hit, leaves every other episode
and every other field untouched, and leaves the semantic entries and the
alias bindings unchanged. -/
theorem dual_search_frame (query : String) (st : DualState)
    (h : (st.episodes.map (·.id)).Nodup) :
    (dualSearch st query).2.episodes
      = st.episodes.map (fun e =>
          if e.id ∈ ((episodicSearch query st.aliases st.episodes).take 3).map
              (fun r => r.1.id)
          then { e with retrievalCount := e.retrievalCount + 1 } else e) ∧
    (dualSearch st query).2.entries = st.entries ∧
    (dualSearch st query).2.aliases = st.aliases := by
  refine ⟨?_, rfl, rfl⟩
  have hfold : (dualSearch st query).2.episodes
      = ((episodicSearch query st.aliases st.episodes).take 3).foldl
          (fun acc r => incrementRetrieval acc r.1.id) st.episodes := rfl
  have hgoal : ((episodicSearch query st.aliases st.episodes).take 3).foldl
      (fun acc r => incrementRetrieval acc r.1.id) st.episodes
      = (((episodicSearch query st.aliases st.episodes).take 3).map
          (fun r => r.1.id)).foldl incrementRetrieval st.episodes :=
    (List.foldl_map _ _ _ _).symm
  rw [hfold, hgoal]
  have hperm : (episodicSearch query st.aliases st.episodes).Perm
      (st.episodes.filterMap (fun ep =>
        if 0 < relevanceScore ep (expandQuery query st.aliases)
        then some (ep, relevanceScore ep (expandQuery query st.aliases)) else none)) :=
    List.perm_insertionSort _ _
  have hidsF : ((st.episodes.filterMap (fun ep =>
      if 0 < relevanceScore ep (expandQuery query st.aliases)
      then some (ep, relevanceScore ep (expandQuery query st.aliases)) else none)).map
        (fun r => r.1.id)).Nodup := by
    have hsub := map_fst_posFilter_sublist
      (fun ep => relevanceScore ep (expandQuery query st.aliases)) st.episodes
    have hmm : ((st.episodes.filterMap (fun ep =>
        if 0 < relevanceScore ep (expandQuery query st.aliases)
        then some (ep, relevanceScore ep (expandQuery query st.aliases)) else none)).map
          (fun r => r.1.id))
        = ((st.episodes.filterMap (fun ep =>
            if 0 < relevanceScore ep (expandQuery query st.aliases)
            then some (ep, relevanceScore ep (expandQuery query st.aliases)) else none)).map
              Prod.fst).map (·.id) := by
      rw [List.map_map]
      rfl
    rw [hmm]
    exact List.Nodup.sublist (hsub.map (·.id)) h
  have hidsSorted : ((episodicSearch query st.aliases st.episodes).map
      (fun r => r.1.id)).Nodup :=
    ((hperm.map (fun r => r.1.id)).symm).nodup hidsF
  have htake : (((episodicSearch query st.aliases st.episodes).take 3).map
      (fun r => r.1.id)).Nodup := by
    rw [List.map_take]
    exact (List.take_sublist _ _).nodup hidsSorted
  exact foldl_incrementRetrieval_eq_map _ st.episodes h htake

def frameEps : List Episode :=
  [⟨"ep_001", none, "s", "貓很可愛", [], 3, 0, 0⟩,
   ⟨"ep_002", none, "s", "狗", [], 3, 0, 0⟩]

def frameState : DualState := ⟨frameEps, [], []⟩

/-- C8 witness at a concrete two-episode store. -/
theorem dual_search_frame_witness :
    (frameEps.map (·.id)).Nodup ∧
    (dualSearch frameState "貓").2.episodes
      = frameEps.map (fun e =>
          if e.id ∈ ((episodicSearch "貓" frameState.aliases frameEps).take 3).map
              (fun r => r.1.id)
          then { e with retrievalCount := e.retrievalCount + 1 } else e) :=
  ⟨by decide, (dual_search_frame "貓" frameState (by decide)).1⟩

/-! ## C4: no duplicate semantic entry for an already-consolidated episode -/

/-- The entry `consolidateStep` appends when the dedup check passes. -/
def consEntry (now : ℚ) (entries : List SemEntry) (ep : Episode)
    (item : ScoreRes) : SemEntry :=
  ⟨"sem_" ++ pad3 (entries.length + 1), "從「" ++ ep.source.take 30 ++ "」提煉的洞見",
    extractPattern ep, [ep.id], item.total, now⟩

lemma consolidateStep_cases (eps : List Episode) (now : ℚ) (entries : List SemEntry)
    (item : ScoreRes) :
    consolidateStep eps now entries item = entries ∨
    ∃ ep : Episode,
      alreadyConsolidated ep entries = false ∧
      consolidateStep eps now entries item = entries ++ [consEntry now entries ep item] := by
  unfold consolidateStep
  cases hf : eps.find? (fun e => e.id == item.episodeId) with
  | none => exact Or.inl rfl
  | some ep =>
    by_cases ha : alreadyConsolidated ep entries
    · simp [ha]
    · right
      exact ⟨ep, by simpa using ha, by simp [ha, addEntry, consEntry]⟩

/-- A failed dedup check means no existing entry lists the episode as a
source. -/
lemma not_already_sources {ep : Episode} {entries : List SemEntry}
    (h : alreadyConsolidated ep entries = false) :
    ∀ e' ∈ entries, ep.id ∉ e'.sourceEpisodes := by
  intro e' he' hmem
  rw [alreadyConsolidated, List.any_eq_false] at h
  have := h e' he'
  simp [hmem] at this

/-- Entries written by the consolidation loop list as a source only episode
ids that no entry present at the start of the loop already lists. -/
lemma consolidate_fold_new_sources (eps : List Episode) (now : ℚ) :
    ∀ (items : List ScoreRes) (entries0 : List SemEntry),
      entries0 <+: items.foldl (consolidateStep eps now) entries0 ∧
      ∀ e ∈ (items.foldl (consolidateStep eps now) entries0).drop entries0.length,
        ∀ e' ∈ entries0, ∀ i ∈ e.sourceEpisodes, i ∉ e'.sourceEpisodes := by
  intro items
  induction items with
  | nil =>
    intro entries0
    refine ⟨List.prefix_rfl, ?_⟩
    simp
  | cons item rest ih =>
    intro entries0
    rw [List.foldl_cons]
    rcases consolidateStep_cases eps now entries0 item with heq | ⟨ep, ha, heq⟩
    · rw [heq]
      exact ih entries0
    · rw [heq]
      obtain ⟨hpre, hnew⟩ := ih (entries0 ++ [consEntry now entries0 ep item])
      obtain ⟨t, ht⟩ := hpre
      constructor
      · exact (List.prefix_append entries0 [consEntry now entries0 ep item]).trans ⟨t, ht⟩
      · intro e he e' he' i hi hmem
        rw [← ht, List.append_assoc, List.drop_left] at he
        rcases List.mem_cons.mp he with rfl | het
        · have : i = ep.id := by simpa [consEntry] using hi
          subst this
          exact absurd hmem (not_already_sources ha e' he')
        · have hdropt : (rest.foldl (consolidateStep eps now)
              (entries0 ++ [consEntry now entries0 ep item])).drop
                (entries0 ++ [consEntry now entries0 ep item]).length = t := by
            rw [← ht, List.drop_left]
          exact hnew e (by rw [hdropt]; exact het) e'
            (List.mem_append_left _ he') i hi hmem

/-- C4: running the consolidation engine twice in succession (any scorer at
either time — in particular the saliency scorer at two wall-clock times)
with no episodes added in between never creates, in the second run, a
semantic entry listing a source-episode id that an entry existing after the
first run already lists: the dedup check (`ep["id"] in
entry["source_episodes"]`) guards every write. -/
theorem consolidation_run_idempotent (s1 s2 : Scorer) (now1 now2 : ℚ) (st : Stores) :
    ∀ e ∈ (runConsolidation s2 now2 (runConsolidation s1 now1 st)).entries.drop
        (runConsolidation s1 now1 st).entries.length,
      ∀ e' ∈ (runConsolidation s1 now1 st).entries,
        ∀ i ∈ e.sourceEpisodes, i ∉ e'.sourceEpisodes := by
  intro e he e' he' i hi
  exact (consolidate_fold_new_sources (runConsolidation s1 now1 st).episodes now2 _
    (runConsolidation s1 now1 st).entries).2 e he e' he' i hi

/-- A scorer that retains everything (for the witness's first run). -/
def retainAll : Scorer := fun ep _ _ => ⟨ep.id, 1/2, .retain⟩

/-- A scorer that consolidates everything (for the witness's second run). -/
def consolidateAll : Scorer := fun ep _ _ => ⟨ep.id, 7/10, .consolidate⟩

def seedEntry : SemEntry := ⟨"sem_001", "既有概念", "既有內容", ["ep_042"], 1/2, 0⟩

def seedStores : Stores := ⟨[⟨"ep_001", none, "s", "內容", [], 3, 0, 0⟩], [seedEntry]⟩

set_option maxRecDepth 1024 in
/-- C4 witness: the second run writes an entry sourced at `ep_001`, and that
id is indeed not listed by the pre-existing entry. -/
theorem consolidation_run_idempotent_witness :
    (⟨"sem_002", "從「s」提煉的洞見", "（自動提煉）內容", ["ep_001"], 7/10, 0⟩ : SemEntry) ∈
      (runConsolidation consolidateAll 0 (runConsolidation retainAll 0 seedStores)).entries.drop
        (runConsolidation retainAll 0 seedStores).entries.length ∧
    seedEntry ∈ (runConsolidation retainAll 0 seedStores).entries ∧
    "ep_001" ∈ (⟨"sem_002", "從「s」提煉的洞見", "（自動提煉）內容", ["ep_001"], 7/10, 0⟩ :
      SemEntry).sourceEpisodes ∧
    "ep_001" ∉ seedEntry.sourceEpisodes := by
  have hrun1 : runConsolidation retainAll 0 seedStores = seedStores := by
    with_unfolding_all rfl
  have hrun2 : (runConsolidation consolidateAll 0 seedStores).entries
      = [seedEntry,
         ⟨"sem_002", "從「s」提煉的洞見", "（自動提煉）內容", ["ep_001"], 7/10, 0⟩] := by
    with_unfolding_all rfl
  have h1 : (⟨"sem_002", "從「s」提煉的洞見", "（自動提煉）內容", ["ep_001"], 7/10, 0⟩ :
      SemEntry) ∈
      (runConsolidation consolidateAll 0 (runConsolidation retainAll 0 seedStores)).entries.drop
        (runConsolidation retainAll 0 seedStores).entries.length := by
    rw [hrun1, hrun2]
    simp [seedStores]
  have h2 : seedEntry ∈ (runConsolidation retainAll 0 seedStores).entries := by
    rw [hrun1]
    simp [seedStores]
  exact ⟨h1, h2, by decide,
    consolidation_run_idempotent retainAll consolidateAll 0 0 seedStores _ h1 seedEntry h2
      "ep_001" (by decide)⟩

/-! ## C5: episode ids are reused after pruning (code bug)

`add_episode` assigns `f"ep_{len(self.episodes)+1:03d}"`.  After a
consolidation run prunes an episode the list shrinks, so the next
`add_episode` re-issues an id the surviving episode already carries.  The
two episodes below score 0.205 (prune) and 0.425 (retain) under the real
saliency scorer, so one run prunes exactly `ep_001`. -/

def c5e1 : Episode := ⟨"ep_001", none, "來源一", "內容一", [], 1, 0, 0⟩

def c5e2 : Episode := ⟨"ep_002", none, "來源二", "內容二", [], 5, 1, 0⟩

def c5Stores : Stores := ⟨[c5e1, c5e2], []⟩

lemma frequencyScore_zero : frequencyScore 0 = 0 := by
  unfold frequencyScore
  norm_num [Real.log_one]

lemma c5_total_e1 : totalScore 0 c5e1 [] [c5e1, c5e2] = 41/200 := by
  have hsplit : totalScore 0 c5e1 [] [c5e1, c5e2]
      = 1/4 * frequencyScore 0 + 1/5 * recencyScore 0 none
        + 1/4 * ((userSignalScore 1 0 : ℚ) : ℝ)
        + 3/20 * ((noveltyScore c5e1 [] : ℚ) : ℝ)
        + 3/20 * ((connectionScore c5e1 [c5e1, c5e2] : ℚ) : ℝ) := rfl
  have hu : userSignalScore 1 0 = 3/25 := by unfold userSignalScore; norm_num
  have hn : noveltyScore c5e1 [] = 1/2 := by with_unfolding_all rfl
  have hc : connectionScore c5e1 [c5e1, c5e2] = 0 := by with_unfolding_all rfl
  have hr : recencyScore 0 none = 1/2 := rfl
  rw [hsplit, frequencyScore_zero, hu, hn, hc, hr]
  push_cast
  norm_num

lemma c5_total_e2 : totalScore 0 c5e2 [] [c5e1, c5e2] = 17/40 := by
  have hsplit : totalScore 0 c5e2 [] [c5e1, c5e2]
      = 1/4 * frequencyScore 0 + 1/5 * recencyScore 0 none
        + 1/4 * ((userSignalScore 5 1 : ℚ) : ℝ)
        + 3/20 * ((noveltyScore c5e2 [] : ℚ) : ℝ)
        + 3/20 * ((connectionScore c5e2 [c5e1, c5e2] : ℚ) : ℝ) := rfl
  have hu : userSignalScore 5 1 = 1 := by unfold userSignalScore; norm_num
  have hn : noveltyScore c5e2 [] = 1/2 := by with_unfolding_all rfl
  have hc : connectionScore c5e2 [c5e1, c5e2] = 0 := by with_unfolding_all rfl
  have hr : recencyScore 0 none = 1/2 := rfl
  rw [hsplit, frequencyScore_zero, hu, hn, hc, hr]
  push_cast
  norm_num

lemma roundTo3_41_200 : roundTo3 ((41/200 : ℚ) : ℝ) = 41/200 := by
  unfold roundTo3
  have h1000 : (1000 : ℝ) * ((41/200 : ℚ) : ℝ) = ((205 : ℤ) : ℝ) := by
    push_cast
    norm_num
  rw [h1000, round_intCast]
  norm_num

lemma roundTo3_17_40 : roundTo3 ((17/40 : ℚ) : ℝ) = 17/40 := by
  unfold roundTo3
  have h1000 : (1000 : ℝ) * ((17/40 : ℚ) : ℝ) = ((425 : ℤ) : ℝ) := by
    push_cast
    norm_num
  rw [h1000, round_intCast]
  norm_num

lemma c5_score_e1 : saliencyScorer 0 c5e1 [] [c5e1, c5e2] = ⟨"ep_001", 41/200, .prune⟩ := by
  show saliencyScore 0 c5e1 [] [c5e1, c5e2] = _
  unfold saliencyScore
  have hcast : totalScore 0 c5e1 [] [c5e1, c5e2] = ((41/200 : ℚ) : ℝ) := by
    rw [c5_total_e1]
    norm_num
  rw [hcast, roundTo3_41_200]
  have haction : saliencyAction ((41/200 : ℚ) : ℝ) = .prune := by
    unfold saliencyAction
    rw [if_neg (by push_cast; norm_num), if_pos (by push_cast; norm_num)]
  rw [haction]
  rfl

lemma c5_score_e2 : saliencyScorer 0 c5e2 [] [c5e1, c5e2] = ⟨"ep_002", 17/40, .retain⟩ := by
  show saliencyScore 0 c5e2 [] [c5e1, c5e2] = _
  unfold saliencyScore
  have hcast : totalScore 0 c5e2 [] [c5e1, c5e2] = ((17/40 : ℚ) : ℝ) := by
    rw [c5_total_e2]
    norm_num
  rw [hcast, roundTo3_17_40]
  have haction : saliencyAction ((17/40 : ℚ) : ℝ) = .retain := by
    unfold saliencyAction
    rw [if_neg (by push_cast; norm_num), if_neg (by push_cast; norm_num)]
  rw [haction]
  rfl

/-- One real consolidation cycle on the two-episode store prunes `ep_001`
and keeps `ep_002`. -/
lemma c5_run : runConsolidation (saliencyScorer 0) 0 c5Stores = ⟨[c5e2], []⟩ := by
  unfold runConsolidation c5Stores
  dsimp only
  rw [List.map_cons, List.map_cons, List.map_nil, c5_score_e1, c5_score_e2]
  with_unfolding_all rfl

set_option maxRecDepth 1024 in
/-- C5 (code bug): starting from the two-episode store, one real
consolidation run prunes `ep_001`; the next `add_episode` then computes its
id as `ep_{len+1} = ep_002`, which the surviving episode already carries —
two episodes in the store share the id `ep_002`, violating the uniqueness
invariant the design document states. -/
theorem episode_id_reuse_after_prune :
    ((addEpisode (runConsolidation (saliencyScorer 0) 0 c5Stores).episodes 0
        "新內容" "新來源" [] 3).2.map (fun e => e.id)) = ["ep_002", "ep_002"] ∧
    ¬ (((addEpisode (runConsolidation (saliencyScorer 0) 0 c5Stores).episodes 0
        "新內容" "新來源" [] 3).2.map (fun e => e.id)).Nodup) := by
  rw [c5_run]
  exact ⟨by with_unfolding_all decide, by with_unfolding_all decide⟩

end CBMemory
